import Mathlib

/-!
Shallow embedding of the `medusa-product-feed` repository
(`src/modules/product-feed/service.ts` and `src/api/feed/v2/products/route.ts`)
with proofs about the feed-building pipeline: name sanitization, option
normalization, image selection, batch pagination, region resolution, item
mapping and post-processing hooks.

JavaScript strings are modelled as `String` / `List Char`; JavaScript values
that can be `null`/`undefined` are modelled with `Option` (and, where an item
field can carry several shapes, with the `JsValue` type).  A thrown JavaScript
`TypeError` is modelled with `Except JsErr`.
-/

namespace ProductFeed

/-! ### JavaScript string primitives -/

/-- Model of `String.prototype.toLowerCase` restricted to the characters this
pipeline distinguishes: ASCII letters plus the three Danish letters Æ, Ø, Å
(the only non-ASCII letters the sanitizer treats specially).  All other
characters are left unchanged; any remaining character outside `[a-z0-9_]` is
later replaced by `_`, so the restriction is observationally faithful. -/
def jsLowerChar (c : Char) : Char :=
  if c = 'Æ' then 'æ'
  else if c = 'Ø' then 'ø'
  else if c = 'Å' then 'å'
  else c.toLower

/-- Model of `String.prototype.toLowerCase` on whole strings. -/
def jsToLowerStr (s : String) : String :=
  ⟨s.toList.map jsLowerChar⟩

/-- Model of `String.prototype.toUpperCase` (used only on ASCII currency
codes). -/
def jsToUpperStr (s : String) : String :=
  ⟨s.toList.map Char.toUpper⟩

/-- Test used by `jsIncludes`: does `sub` occur at the head of `l`? -/
def jsIncludesFrom (sub : List Char) : List Char → Bool
  | [] => sub.isEmpty
  | c :: cs => sub.isPrefixOf (c :: cs) || jsIncludesFrom sub cs

/-- Model of `String.prototype.includes`: substring containment. -/
def jsIncludes (s sub : String) : Bool :=
  jsIncludesFrom sub.toList s.toList

/-! ### Name Sanitizer (`sanitizeXmlName`, service.ts lines 121-129) -/

/-- Character class `[a-z0-9_]` of the sanitizer's replacement regex
(codepoints 97-122, 48-57, 95). -/
def isSafeChar (c : Char) : Bool :=
  (97 ≤ c.toNat && c.toNat ≤ 122) || (48 ≤ c.toNat && c.toNat ≤ 57) || c.toNat == 95

/-- The regex test `/^[a-z_]/`: the first character is a lowercase ASCII
letter or an underscore. -/
def startsSafe : List Char → Bool
  | [] => false
  | c :: _ => (97 ≤ c.toNat && c.toNat ≤ 122) || c.toNat == 95

/-- The replacement `æ→ae`, `ø→oe`, `å→aa` performed by
`.replace(/æ/g, "ae").replace(/ø/g, "oe").replace(/å/g, "aa")`. -/
def danishExpand (c : Char) : List Char :=
  if c = 'æ' then ['a', 'e']
  else if c = 'ø' then ['o', 'e']
  else if c = 'å' then ['a', 'a']
  else [c]

/-- The first three steps of `sanitizeXmlName`, in source order: lowercase,
expand the Danish letters, replace every character outside `[a-z0-9_]` with
`_`. -/
def sanitizeStage3 (name : List Char) : List Char :=
  ((name.map jsLowerChar).flatMap danishExpand).map
    (fun c => if isSafeChar c then c else '_')

/-- `sanitizeXmlName` from service.ts on character lists: lowercase, expand
the Danish letters, replace every character outside `[a-z0-9_]` with `_`,
and if the result does not match `/^[a-z_]/`, prepend `"opt_"`. -/
def sanitizeXmlName (name : List Char) : List Char :=
  if startsSafe (sanitizeStage3 name) then sanitizeStage3 name
  else 'o' :: 'p' :: 't' :: '_' :: sanitizeStage3 name

/-- `sanitizeXmlName` on `String`. -/
def sanitizeName (s : String) : String :=
  ⟨sanitizeXmlName s.toList⟩

/-- Matching the regular expression `^[a-z_][a-z0-9_]*$`: nonempty, the head
in `[a-z_]`, every character in `[a-z0-9_]`. -/
def validIdent (l : List Char) : Bool :=
  startsSafe l && l.all isSafeChar

theorem isSafeChar_after_replace (c : Char) :
    isSafeChar (if isSafeChar c then c else '_') = true := by
  by_cases h : isSafeChar c = true
  · simp [h]
  · simp [h]
    decide

theorem jsLowerChar_of_safe (c : Char) (h : isSafeChar c = true) :
    jsLowerChar c = c := by
  simp only [isSafeChar, Bool.or_eq_true, Bool.and_eq_true, decide_eq_true_eq,
    beq_iff_eq] at h
  have h1 : c ≠ 'Æ' := by intro e; subst e; revert h; decide
  have h2 : c ≠ 'Ø' := by intro e; subst e; revert h; decide
  have h3 : c ≠ 'Å' := by intro e; subst e; revert h; decide
  simp only [jsLowerChar, if_neg h1, if_neg h2, if_neg h3, Char.toLower]
  have h4 : ¬(c.toNat ≥ 65 ∧ c.toNat ≤ 90) := by omega
  simp [h4]

theorem danishExpand_of_safe (c : Char) (h : isSafeChar c = true) :
    danishExpand c = [c] := by
  simp only [isSafeChar, Bool.or_eq_true, Bool.and_eq_true, decide_eq_true_eq,
    beq_iff_eq] at h
  have h1 : c ≠ 'æ' := by intro e; subst e; revert h; decide
  have h2 : c ≠ 'ø' := by intro e; subst e; revert h; decide
  have h3 : c ≠ 'å' := by intro e; subst e; revert h; decide
  simp [danishExpand, h1, h2, h3]

theorem map_jsLowerChar_of_safe (l : List Char) (h : l.all isSafeChar = true) :
    l.map jsLowerChar = l := by
  induction l with
  | nil => rfl
  | cons c cs ih =>
    simp only [List.all_cons, Bool.and_eq_true] at h
    simp [jsLowerChar_of_safe c h.1, ih h.2]

theorem flatMap_danishExpand_of_safe (l : List Char) (h : l.all isSafeChar = true) :
    l.flatMap danishExpand = l := by
  induction l with
  | nil => rfl
  | cons c cs ih =>
    simp only [List.all_cons, Bool.and_eq_true] at h
    simp [List.flatMap_cons, danishExpand_of_safe c h.1, ih h.2]

theorem map_replace_of_safe (l : List Char) (h : l.all isSafeChar = true) :
    l.map (fun c => if isSafeChar c then c else '_') = l := by
  induction l with
  | nil => rfl
  | cons c cs ih =>
    simp only [List.all_cons, Bool.and_eq_true] at h
    simp [h.1, ih h.2]

theorem sanitizeStage3_all_safe (l : List Char) :
    (sanitizeStage3 l).all isSafeChar = true := by
  unfold sanitizeStage3
  rw [List.all_map]
  exact List.all_eq_true.mpr fun c _ => isSafeChar_after_replace c

theorem sanitizeXmlName_all_safe (l : List Char) :
    (sanitizeXmlName l).all isSafeChar = true := by
  unfold sanitizeXmlName
  cases h : startsSafe (sanitizeStage3 l) with
  | true =>
    simp only [if_true]
    exact sanitizeStage3_all_safe l
  | false =>
    simp only [Bool.false_eq_true, if_false, List.all_cons, Bool.and_eq_true]
    exact ⟨by decide, by decide, by decide, by decide, sanitizeStage3_all_safe l⟩

theorem sanitizeXmlName_startsSafe (l : List Char) :
    startsSafe (sanitizeXmlName l) = true := by
  unfold sanitizeXmlName
  cases h : startsSafe (sanitizeStage3 l) with
  | true => simpa using h
  | false =>
    simp only [Bool.false_eq_true, if_false]
    rfl

theorem sanitizeXmlName_of_safe (l : List Char)
    (hall : l.all isSafeChar = true) (hstart : startsSafe l = true) :
    sanitizeXmlName l = l := by
  have hs : sanitizeStage3 l = l := by
    unfold sanitizeStage3
    rw [map_jsLowerChar_of_safe l hall, flatMap_danishExpand_of_safe l hall,
      map_replace_of_safe l hall]
  unfold sanitizeXmlName
  rw [hs, if_pos hstart]

/-- Claim C5: the name sanitizer is idempotent — `sanitize(sanitize(x)) =
sanitize(x)` for every input string — and its output always matches the
regular expression `^[a-z_][a-z0-9_]*$` (nonempty, starting with a lowercase
letter or underscore, all characters in `[a-z0-9_]`). -/
theorem sanitizeName_idempotent_and_valid (s : String) :
    sanitizeName (sanitizeName s) = sanitizeName s
      ∧ validIdent (sanitizeName s).toList = true := by
  constructor
  · show (⟨sanitizeXmlName (String.toList ⟨sanitizeXmlName s.toList⟩)⟩ : String)
      = ⟨sanitizeXmlName s.toList⟩
    have hl : String.toList (⟨sanitizeXmlName s.toList⟩ : String)
        = sanitizeXmlName s.toList := rfl
    rw [hl, sanitizeXmlName_of_safe _ (sanitizeXmlName_all_safe s.toList)
      (sanitizeXmlName_startsSafe s.toList)]
  · have hl : (sanitizeName s).toList = sanitizeXmlName s.toList := rfl
    rw [hl]
    unfold validIdent
    rw [sanitizeXmlName_startsSafe, sanitizeXmlName_all_safe]
    rfl

/-! ### Option Normalizer (`handleVariantOptions`, service.ts lines 131-152) -/

/-- Output mode of the feed builder (`mode: "json" | "xml"`). -/
inductive Mode
  | json
  | xml
  deriving DecidableEq, Repr

/-- A raw option-value record as fetched into the variant
(`variants.options.value`, `variants.options.option.title`).
`title` is `optionValue.option?.title` (`none` models an absent `option`
relation or an absent title); `value` is `optionValue.value` (`none` models a
null/undefined value, as JavaScript distinguishes absence from `""`). -/
structure OptionValue where
  title : Option String
  value : Option String
  deriving DecidableEq, Repr

/-- A thrown JavaScript error. -/
inductive JsErr
  | typeError
  deriving DecidableEq, Repr

/-- `result[key] = value` on a JavaScript object modelled as an
insertion-ordered association list: an existing key keeps its position and is
overwritten, a new key is appended. -/
def recordSet {α : Type} (r : List (String × α)) (k : String) (v : α) :
    List (String × α) :=
  if r.any (fun p => p.1 == k) then r.map (fun p => if p.1 == k then (k, v) else p)
  else r ++ [(k, v)]

/-- One iteration of the `options.forEach` body in `handleVariantOptions`.
Accessing `.includes` on an absent value is a JavaScript `TypeError`, which
aborts the whole call (`optionValue.value.includes("Default")` is evaluated
before any presence check). -/
def handleOptionStep (mode : Mode) (googleMerchant : Bool)
    (acc : List (String × String)) (ov : OptionValue) :
    Except JsErr (List (String × String)) :=
  match ov.value with
  | none => Except.error JsErr.typeError
  | some v =>
    if jsIncludes v "Default" || jsIncludes v "default" then Except.ok acc
    else
      match ov.title with
      | some t =>
        if t == "" || v == "" then Except.ok acc
        else if mode = Mode.xml then
          Except.ok (recordSet acc
            (if googleMerchant then "g:" ++ sanitizeName t else sanitizeName t) v)
        else Except.ok (recordSet acc (jsToLowerStr t) v)
      | none => Except.ok acc

/-- `handleVariantOptions` from service.ts: fold the forEach body over the
option-value list, starting from the empty record. -/
def handleVariantOptions (mode : Mode) (googleMerchant : Bool)
    (opts : List OptionValue) : Except JsErr (List (String × String)) :=
  opts.foldlM (handleOptionStep mode googleMerchant) []

/-- The option normalizer as the spec words it (total function): skip an
entry whose value contains the substring `"Default"` or `"default"`, skip an
entry whose option title or value is absent or empty, and otherwise map the
entry to its mode-dependent key — `sanitize(title)`, `g:`-prefixed when the
Google Merchant namespace is enabled, in XML mode; `lowercase(title)` in JSON
mode — with later colliding keys overwriting earlier ones in place. -/
def specNormalizeStep (mode : Mode) (googleMerchant : Bool)
    (acc : List (String × String)) (ov : OptionValue) : List (String × String) :=
  match ov.value with
  | none => acc
  | some v =>
    if jsIncludes v "Default" || jsIncludes v "default" then acc
    else
      match ov.title with
      | some t =>
        if t == "" || v == "" then acc
        else if mode = Mode.xml then
          recordSet acc
            (if googleMerchant then "g:" ++ sanitizeName t else sanitizeName t) v
        else recordSet acc (jsToLowerStr t) v
      | none => acc

/-- Total (never-throwing) normalizer following the spec's words; compared
against the source's `handleVariantOptions` below. -/
def specNormalizeOptions (mode : Mode) (googleMerchant : Bool)
    (opts : List OptionValue) : List (String × String) :=
  opts.foldl (specNormalizeStep mode googleMerchant) []

theorem handleOptionStep_of_present (mode : Mode) (gm : Bool)
    (acc : List (String × String)) (ov : OptionValue) (v : String)
    (hv : ov.value = some v) :
    handleOptionStep mode gm acc ov = Except.ok (specNormalizeStep mode gm acc ov) := by
  unfold handleOptionStep specNormalizeStep
  rw [hv]
  by_cases h1 : (jsIncludes v "Default" || jsIncludes v "default") = true
  · simp [h1]
  · cases ht : ov.title with
    | none => simp [h1]
    | some t =>
      by_cases h2 : (t == "" || v == "") = true
      · simp [h1, h2]
      · by_cases h3 : mode = Mode.xml
        · simp [h1, h2, h3]
        · simp [h1, h2, h3]

theorem foldlM_handleOption_of_present (mode : Mode) (gm : Bool)
    (opts : List OptionValue) (acc : List (String × String))
    (h : ∀ ov ∈ opts, ov.value ≠ none) :
    opts.foldlM (handleOptionStep mode gm) acc
      = Except.ok (opts.foldl (specNormalizeStep mode gm) acc) := by
  induction opts generalizing acc with
  | nil => rfl
  | cons ov rest ih =>
    have hov : ov.value ≠ none := h ov (List.mem_cons_self ov rest)
    have hrest : ∀ o ∈ rest, o.value ≠ none := fun o ho => h o (List.mem_cons_of_mem ov ho)
    obtain ⟨v, hv⟩ := Option.ne_none_iff_exists'.mp hov
    rw [List.foldlM_cons, List.foldl_cons,
      handleOptionStep_of_present mode gm acc ov v hv]
    exact ih _ hrest

/-- Claim C6 (amended): for every option-value list in which every entry's
value is present, the normalizer never throws and returns exactly the
spec-worded normalization (which skips entries whose value contains
`"Default"`/`"default"`, skips entries with an absent title or an empty title
or value, and maps the rest to mode-dependent keys); in particular an empty
input yields an empty mapping.  (An entry with an absent value, by contrast,
makes the normalizer throw a `TypeError` — see the counterexample.) -/
theorem handleVariantOptions_eq_spec_of_present (mode : Mode) (gm : Bool)
    (opts : List OptionValue) (h : ∀ ov ∈ opts, ov.value ≠ none) :
    handleVariantOptions mode gm opts
      = Except.ok (specNormalizeOptions mode gm opts)
      ∧ handleVariantOptions mode gm [] = Except.ok [] := by
  exact ⟨foldlM_handleOption_of_present mode gm opts [] h, rfl⟩

/-- Witness for claim C6: the amended theorem applied to a concrete list with
a `Default`-marked entry, an entry with an absent title, an empty value, and
a regular entry. -/
theorem handleVariantOptions_eq_spec_witness :
    handleVariantOptions Mode.json false
      [⟨some "Color", some "Red"⟩, ⟨some "Size", some "Default Size"⟩,
        ⟨none, some "x"⟩, ⟨some "Width", some ""⟩]
      = Except.ok [("color", "Red")] := by
  have h := handleVariantOptions_eq_spec_of_present Mode.json false
    [⟨some "Color", some "Red"⟩, ⟨some "Size", some "Default Size"⟩,
      ⟨none, some "x"⟩, ⟨some "Width", some ""⟩] (by decide)
  rw [h.1]
  rfl

/-- Counterexample for claim C6 as stated: an entry whose value is absent is
not skipped — `optionValue.value.includes("Default")` is evaluated before the
presence check, so the normalizer throws a `TypeError`. -/
theorem handleVariantOptions_throws_on_absent_value :
    handleVariantOptions Mode.json false [⟨some "Size", none⟩]
      = Except.error JsErr.typeError := rfl

/-! ### Additional-image selection (service.ts lines 248-260 and 313-325) -/

/-- JavaScript array indexing `arr[i]` (`undefined` when out of range). -/
def listAt {α : Type} : List α → Nat → Option α
  | [], _ => none
  | a :: _, 0 => some a
  | _ :: t, n + 1 => listAt t n

/-- `product?.images?.[i]?.url`: `none` models both an out-of-range index and
a null/undefined url. -/
def jsIndexUrl (images : List (Option String)) (i : Nat) : Option String :=
  (listAt images i).bind id

/-- The `rawImages` array from the source: only the first three entries of
the product's image list are consulted. -/
def rawImages (images : List (Option String)) : List (Option String) :=
  [jsIndexUrl images 0, jsIndexUrl images 1, jsIndexUrl images 2]

/-- The body of the image-selection loop: the guard `if (!url) continue`
skips a falsy url — absent (`undefined`/`null`) **or the empty string** —
then the thumbnail and already-collected urls are skipped, and anything else
is pushed. -/
def addImageStep (thumbnail : Option String) (acc : List String)
    (url : Option String) : List String :=
  match url with
  | none => acc
  | some u =>
    if u == "" then acc
    else if thumbnail == some u then acc
    else if acc.contains u then acc
    else acc ++ [u]

/-- The `additionalImages` accumulator from the source, fed from `rawImages`
(the first three image entries only). -/
def additionalImages (thumbnail : Option String) (images : List (Option String)) :
    List String :=
  (rawImages images).foldl (addImageStep thumbnail) []

/-- Image selection as the original claim words it: every URL present in the
given image list is eligible (including an empty one); only the thumbnail and
duplicates are excluded; the first up to two survivors are taken in list
order. -/
def claimImageStep (thumbnail : Option String) (acc : List String)
    (url : Option String) : List String :=
  match url with
  | none => acc
  | some u =>
    if thumbnail == some u then acc
    else if acc.contains u then acc
    else acc ++ [u]

/-- The original claim's whole-list selection (see `claimImageStep`). -/
def claimSelectedImages (thumbnail : Option String) (images : List (Option String)) :
    List String :=
  (images.foldl (claimImageStep thumbnail) []).take 2

/-- Image selection as the amended claim words it: the first up-to-two
non-empty URLs of the given image list that are neither the thumbnail nor
duplicates of each other, taken in list order. -/
def specSelectedImages (thumbnail : Option String) (images : List (Option String)) :
    List String :=
  (images.foldl (addImageStep thumbnail) []).take 2

/-! ### Batch Paginator (service.ts lines 112-117 and 154-160) -/

/-- `Math.max(1, pageSize ?? batchSize)`. -/
def effectiveBatchSize (batchSize : Int) (pageSize : Option Int) : Int :=
  max 1 (pageSize.getD batchSize)

/-- Ceiling division on naturals ( `(a + b - 1) / b` ). -/
def ceilDiv (a b : Nat) : Nat :=
  (a + b - 1) / b

/-- `Math.ceil(totalProducts / effectiveBatchSize)` (the effective batch size
is always at least 1, so real ceiling division coincides with the natural
formula). -/
def numBatches (total : Nat) (batchSize : Int) (pageSize : Option Int) : Nat :=
  ceilDiv total (effectiveBatchSize batchSize pageSize).toNat

/-- `typeof page === 'number' && page > 0`. -/
def pagePositive : Option Int → Bool
  | some p => decide (0 < p)
  | none => false

/-- The integers from `a` to `b` inclusive (empty when `a > b`), the index
sequence of `for (let i = a; i <= b; i++)`. -/
def intRangeIncl (a b : Int) : List Int :=
  (List.range (b + 1 - a).toNat).map (fun i : Nat => a + (i : Int))

/-- The batch indices the loop visits: `page-1` alone when a positive page is
supplied, else `0 .. batches-1`. -/
def batchIndexList (total : Nat) (batchSize : Int) (pageSize page : Option Int) :
    List Int :=
  intRangeIncl
    (if pagePositive page then page.getD 0 - 1 else 0)
    (if pagePositive page then page.getD 0 - 1
      else (numBatches total batchSize pageSize : Int) - 1)

/-- The fetch descriptors `(offset = batchIndex * effectiveBatchSize,
take = effectiveBatchSize)` produced by the loop. -/
def batchDescriptors (total : Nat) (batchSize : Int) (pageSize page : Option Int) :
    List (Int × Int) :=
  (batchIndexList total batchSize pageSize page).map
    (fun i => (i * effectiveBatchSize batchSize pageSize,
      effectiveBatchSize batchSize pageSize))

/-! ### Item Mapper (service.ts lines 231-377) -/

/-- A JavaScript value stored in a mapped feed item. -/
inductive JsValue
  | null
  | undef
  | str (s : String)
  | num (n : Int)
  deriving DecidableEq, Repr

/-- A mapped feed item: a JavaScript object modelled as an insertion-ordered
association list. -/
abbrev Item := List (String × JsValue)

/-- A possibly-absent string put into an item field. -/
def jsOfOpt : Option String → JsValue
  | some s => JsValue.str s
  | none => JsValue.undef

/-- The strip test `item[key] === null || item[key] === undefined ||
item[key] === ""`. -/
def isEmptyVal : JsValue → Bool
  | JsValue.null => true
  | JsValue.undef => true
  | JsValue.str s => s == ""
  | JsValue.num _ => false

/-- JavaScript `s || d` on strings (`""` is falsy). -/
def jsStrOr (s d : String) : String :=
  if s == "" then d else s

/-- JavaScript `x || undefined` on a nullable string. -/
def jsOrUndef : Option String → Option String
  | some s => if s == "" then none else some s
  | none => none

/-- JavaScript `a || b` on nullable strings. -/
def jsOrOpt (a b : Option String) : Option String :=
  match a with
  | some s => if s == "" then b else some s
  | none => b

/-- `variants.calculated_price` with its two requested amounts.  Per the
spec's data model (`originalAmount?`, `calculatedAmount?`; the `types.ts`
declaration file only aliases the framework's `CalculatedPriceSet`), each
amount is either resolved or absent. -/
structure CalculatedPrice where
  original_amount : Option Int
  calculated_amount : Option Int
  deriving DecidableEq, Repr

/-- A fetched product variant (the fields the service requests). -/
structure Variant where
  id : String
  sku : Option String
  options : List OptionValue
  calculated_price : Option CalculatedPrice
  deriving DecidableEq, Repr

/-- A fetched product (the fields the service requests); `typeValue` is
`product.type?.value`, `images` the list of `images[i].url`. -/
structure Product where
  id : String
  title : Option String
  description : Option String
  handle : String
  thumbnail : Option String
  images : List (Option String)
  material : Option String
  typeValue : Option String
  sales_channels : List String
  variants : List Variant
  deriving DecidableEq, Repr

/-- The variant filter `variant.calculated_price?.original_amount !==
undefined`. -/
def hasOriginalAmount (v : Variant) : Bool :=
  match v.calculated_price with
  | some cp => cp.original_amount.isSome
  | none => false

/-- JavaScript template interpolation of a possibly-undefined number. -/
def jsNumTemplate : Option Int → String
  | some n => toString n
  | none => "undefined"

/-- `` `${amount} ${selectedCurrencyCode.toUpperCase()}` ``. -/
def priceString (amount : Option Int) (currencyCode : String) : String :=
  jsNumTemplate amount ++ " " ++ jsToUpperStr currencyCode

/-- UTF-8 encoding of a character's codepoint. -/
def utf8Bytes (c : Char) : List Nat :=
  if c.toNat < 128 then [c.toNat]
  else if c.toNat < 2048 then [192 + c.toNat / 64, 128 + c.toNat % 64]
  else if c.toNat < 65536 then
    [224 + c.toNat / 4096, 128 + c.toNat / 64 % 64, 128 + c.toNat % 64]
  else
    [240 + c.toNat / 262144, 128 + c.toNat / 4096 % 64, 128 + c.toNat / 64 % 64,
      128 + c.toNat % 64]

/-- Uppercase hexadecimal digit. -/
def hexDigitChar (n : Nat) : Char :=
  Char.ofNat (if n < 10 then 48 + n else 55 + n)

/-- The byte values `encodeURIComponent` leaves unescaped
(ASCII alphanumerics and `- _ . ! ~ * ( )` and the apostrophe). -/
def isUriUnreserved (b : Nat) : Bool :=
  (65 ≤ b && b ≤ 90) || (97 ≤ b && b ≤ 122) || (48 ≤ b && b ≤ 57) ||
    b == 45 || b == 95 || b == 46 || b == 33 || b == 126 || b == 42 ||
    b == 39 || b == 40 || b == 41

/-- Model of the JavaScript builtin `encodeURIComponent` (an external
collaborator of the repository): percent-encode every UTF-8 byte outside the
unreserved set. -/
def encodeURIComponent (s : String) : String :=
  ⟨s.toList.flatMap fun c =>
    (utf8Bytes c).flatMap fun b =>
      if isUriUnreserved b then [Char.ofNat b]
      else '%' :: hexDigitChar (b / 16) :: [hexDigitChar (b % 16)]⟩

/-- The query string built from the normalized options
(`Object.entries(variantOptions).map(([k, v]) =>
encodeURIComponent(k)=encodeURIComponent(v)).join("&")`). -/
def linkableOptions (vo : List (String × String)) : String :=
  String.intercalate "&"
    (vo.map fun q => encodeURIComponent q.1 ++ "=" ++ encodeURIComponent q.2)

/-- The context handed to a configured `itemTransform` hook. -/
structure TransformCtx where
  product : Product
  variant : Variant
  availability : Int
  regionId : String
  currencyCode : String

/-- The per-build configuration of the mapper: resolved store url, the raw
configured brand option, output mode, Google Merchant namespace flag, the
optional hooks, and the selected region/currency. -/
structure FeedCfg where
  storeUrl : String
  brandOpt : Option String
  mode : Mode
  googleMerchant : Bool
  itemTransform : Option (Item → TransformCtx → Item)
  includeFields : Option (List String)
  excludeFields : Option (List String)
  regionId : String
  currencyCode : String

/-- `Map.get` on an insertion-ordered map. -/
def mapGet {α : Type} (m : List (String × α)) (k : String) : Option α :=
  (m.find? fun p => p.1 == k).map Prod.snd

/-- `const g = (k) => (GoogleMerchant ? `g:`+k : k)`. -/
def gKey (googleMerchant : Bool) (k : String) : String :=
  if googleMerchant then "g:" ++ k else k

/-- `const brand = options?.brand || undefined` (service.ts line 95). -/
def feedBrand (cfg : FeedCfg) : Option String :=
  jsOrUndef cfg.brandOpt

/-- `` `${store_url}/${product.handle}?${linkableOptions}` ``. -/
def itemLink (cfg : FeedCfg) (p : Product) (vo : List (String × String)) : String :=
  cfg.storeUrl ++ "/" ++ p.handle ++ "?" ++ linkableOptions vo

/-- The `...variantOptions` spread merged last into the item literal. -/
def spreadOptions (base : Item) (vo : List (String × String)) : Item :=
  vo.foldl (fun it q => recordSet it q.1 (JsValue.str q.2)) base

/-- The XML-mode item literal (service.ts lines 261-279), keys optionally
`g:`-prefixed, options merged last. -/
def baseItemXml (cfg : FeedCfg) (p : Product) (v : Variant)
    (vo : List (String × String)) (avail : Int) : Item :=
  spreadOptions
    [(gKey cfg.googleMerchant "id", JsValue.str v.id),
      (gKey cfg.googleMerchant "item_group_id", JsValue.str p.id),
      (gKey cfg.googleMerchant "title", jsOfOpt p.title),
      (gKey cfg.googleMerchant "description", jsOfOpt p.description),
      (gKey cfg.googleMerchant "link", JsValue.str (itemLink cfg p vo)),
      (gKey cfg.googleMerchant "image_link", jsOfOpt p.thumbnail),
      (gKey cfg.googleMerchant "additional_image_1",
        jsOfOpt (listAt (additionalImages p.thumbnail p.images) 0)),
      (gKey cfg.googleMerchant "additional_image_2",
        jsOfOpt (listAt (additionalImages p.thumbnail p.images) 1)),
      (gKey cfg.googleMerchant "brand", jsOfOpt (jsOrOpt (feedBrand cfg) p.typeValue)),
      (gKey cfg.googleMerchant "condition", JsValue.str "new"),
      (gKey cfg.googleMerchant "availability",
        JsValue.str (if 0 < avail then "in stock" else "out of stock")),
      (gKey cfg.googleMerchant "price",
        JsValue.str (priceString (v.calculated_price.bind CalculatedPrice.original_amount)
          cfg.currencyCode)),
      (gKey cfg.googleMerchant "sale_price",
        JsValue.str (priceString (v.calculated_price.bind CalculatedPrice.calculated_amount)
          cfg.currencyCode)),
      (gKey cfg.googleMerchant "mpn", jsOfOpt v.sku),
      (gKey cfg.googleMerchant "product_type", jsOfOpt p.typeValue),
      (gKey cfg.googleMerchant "material",
        JsValue.str (jsStrOr (p.material.getD "") ""))]
    vo

/-- The JSON-mode item literal (service.ts lines 326-343), options merged
last. -/
def baseItemJson (cfg : FeedCfg) (p : Product) (v : Variant)
    (vo : List (String × String)) (avail : Int) : Item :=
  spreadOptions
    [("id", JsValue.str v.id),
      ("itemgroup_id", JsValue.str p.id),
      ("title", jsOfOpt p.title),
      ("description", jsOfOpt p.description),
      ("link", JsValue.str (itemLink cfg p vo)),
      ("image_link", jsOfOpt p.thumbnail),
      ("additional_image_1", jsOfOpt (listAt (additionalImages p.thumbnail p.images) 0)),
      ("additional_image_2", jsOfOpt (listAt (additionalImages p.thumbnail p.images) 1)),
      ("brand", jsOfOpt (feedBrand cfg)),
      ("price",
        JsValue.str (priceString (v.calculated_price.bind CalculatedPrice.original_amount)
          cfg.currencyCode)),
      ("sale_price",
        JsValue.str (priceString (v.calculated_price.bind CalculatedPrice.calculated_amount)
          cfg.currencyCode)),
      ("availability", JsValue.num avail),
      ("mpn", jsOfOpt v.sku),
      ("product_type", jsOfOpt p.typeValue),
      ("material", JsValue.str (jsStrOr (p.material.getD "") ""))]
    vo

/-- Post-processing step 1: the optional `itemTransform` hook. -/
def applyTransform (cfg : FeedCfg) (ctx : TransformCtx) (it : Item) : Item :=
  match cfg.itemTransform with
  | some f => f it ctx
  | none => it

/-- Post-processing step 2: `includeFields` filtering via
`Object.fromEntries(Object.entries(item).filter(...))` — only applied for a
nonempty list, and the item's original key order is preserved. -/
def applyInclude (includeFields : Option (List String)) (it : Item) : Item :=
  match includeFields with
  | some l => if l.isEmpty then it else it.filter fun q => l.contains q.1
  | none => it

/-- Post-processing step 3: `excludeFields.forEach((f) => delete item[f])` —
only applied for a nonempty list. -/
def applyExclude (excludeFields : Option (List String)) (it : Item) : Item :=
  match excludeFields with
  | some l => if l.isEmpty then it else it.filter fun q => !(l.contains q.1)
  | none => it

/-- Post-processing step 4: strip keys whose value is null, undefined or the
empty string. -/
def stripEmptyValues (it : Item) : Item :=
  it.filter fun q => !(isEmptyVal q.2)

/-- The hook pipeline in source order: transform, include-filter,
exclude-filter, empty-value strip. -/
def postProcess (cfg : FeedCfg) (ctx : TransformCtx) (it : Item) : Item :=
  stripEmptyValues (applyExclude cfg.excludeFields
    (applyInclude cfg.includeFields (applyTransform cfg ctx it)))

/-- Map one eligible variant to its feed item (the body of the async map in
service.ts lines 236-372); a `TypeError` from the option normalizer rejects
the whole mapping. -/
def mapVariant (cfg : FeedCfg) (avail : List (String × Int)) (p : Product)
    (v : Variant) : Except JsErr Item :=
  match handleVariantOptions cfg.mode cfg.googleMerchant v.options with
  | Except.error e => Except.error e
  | Except.ok vo =>
    match cfg.mode with
    | Mode.xml =>
      Except.ok (postProcess cfg
        ⟨p, v, (mapGet avail v.id).getD 0, cfg.regionId, cfg.currencyCode⟩
        (baseItemXml cfg p v vo ((mapGet avail v.id).getD 0)))
    | Mode.json =>
      Except.ok (postProcess cfg
        ⟨p, v, (mapGet avail v.id).getD 0, cfg.regionId, cfg.currencyCode⟩
        (baseItemJson cfg p v vo ((mapGet avail v.id).getD 0)))

/-- The variants of a product that survive the original-amount filter. -/
def eligibleVariants (p : Product) : List Variant :=
  p.variants.filter hasOriginalAmount

/-- The `(product, variant)` pairs of a batch, in product-then-variant order
(`productBatch.flatMap(product => product.variants.filter(...).map(...))`). -/
def batchPairs (products : List Product) : List (Product × Variant) :=
  products.flatMap fun p => (eligibleVariants p).map fun v => (p, v)

/-- Map a whole product batch against a fixed availability lookup
(`Promise.all` over the flat-mapped variant promises). -/
def mapBatch (cfg : FeedCfg) (avail : List (String × Int))
    (products : List Product) : Except JsErr (List Item) :=
  (batchPairs products).mapM fun q => mapVariant cfg avail q.1 q.2

/-- Read a field of a mapped item (`item[key]`). -/
def itemGet (it : Item) (k : String) : Option JsValue :=
  mapGet it k

/-! ### Region resolution (service.ts lines 98-109) and the
`/feed/v2/products` route (route.ts lines 15-85) -/

/-- A country record of a region (`iso_2` / `iso_3`). -/
structure Country where
  iso_2 : Option String
  iso_3 : Option String
  deriving DecidableEq, Repr

/-- A region returned by the region module. -/
structure Region where
  id : String
  currency_code : String
  countries : List Country
  deriving DecidableEq, Repr

/-- `regionId ? regions.find((r) => r.id === regionId) : undefined`. -/
def findRegionById (regions : List Region) (regionId : Option String) :
    Option Region :=
  match regionId with
  | some s => if s == "" then none else regions.find? fun r => r.id == s
  | none => none

/-- `currencyCode ? regions.find((r) => r.currency_code === currencyCode) :
undefined`. -/
def findRegionByCurrency (regions : List Region) (currencyCode : Option String) :
    Option Region :=
  match currencyCode with
  | some s => if s == "" then none else regions.find? fun r => r.currency_code == s
  | none => none

/-- Region selection in `buildMappedFeedData`: `none` models the early
`return []` on an empty region list; otherwise
`regionById || regionByCurrency || regions[0]`. -/
def resolveRegion (regions : List Region) (regionId currencyCode : Option String) :
    Option Region :=
  match regions with
  | [] => none
  | r0 :: _ =>
    match findRegionById regions regionId with
    | some r => some r
    | none =>
      match findRegionByCurrency regions currencyCode with
      | some r => some r
      | none => some r0

/-- The 404 responses of the `/feed/v2/products` route. -/
inductive RouteError
  | noRegions
  | noCountryMatch
  | noCurrencyMatch
  deriving DecidableEq, Repr

/-- `(c?.iso_2 || c?.iso_3)?.toLowerCase?.() === cc`. -/
def countryMatches (cc : String) (c : Country) : Bool :=
  match jsOrOpt c.iso_2 c.iso_3 with
  | some s => jsToLowerStr s == cc
  | none => false

/-- JavaScript truthiness of a nullable string. -/
def optTruthy : Option String → Bool
  | some s => !(s == "")
  | none => false

/-- The region-selection logic of the `/feed/v2/products` GET handler:
404 when no regions exist; prefer a country-code match (404 when absent),
else a currency match (404 when absent), else the first region.  Returns the
`(region_id, currency_code)` pair passed to `buildMappedFeedData`. -/
def feedV2SelectRegion (regions : List Region)
    (country_code currency : Option String) :
    Except RouteError (String × String) :=
  match regions with
  | [] => Except.error RouteError.noRegions
  | r0 :: _ =>
    if optTruthy country_code then
      match regions.find? fun r =>
          r.countries.any (countryMatches (jsToLowerStr (country_code.getD ""))) with
      | some r => Except.ok (r.id, r.currency_code)
      | none => Except.error RouteError.noCountryMatch
    else if optTruthy currency then
      match regions.find? fun r => r.currency_code == currency.getD "" with
      | some r => Except.ok (r.id, r.currency_code)
      | none => Except.error RouteError.noCurrencyMatch
    else Except.ok (r0.id, r0.currency_code)

/-- The GET handler composed with an abstract feed build: a selection error
is returned as a 404 without invoking the build. -/
def feedV2GET (regions : List Region) (country_code currency : Option String)
    (build : String → String → List Item) : Except RouteError (List Item) :=
  match feedV2SelectRegion regions country_code currency with
  | Except.error e => Except.error e
  | Except.ok rc => Except.ok (build rc.1 rc.2)

/-- The static feed channel configuration (`ProductFeedOptions`). -/
structure FeedOptions where
  title : String
  link : String
  description : String
  brand : Option String

/-- The arguments of `buildMappedFeedData` (collaborator modules excluded;
`batchSize` defaults to 50 at the call boundary). -/
structure BuildArgs where
  regionId : Option String
  currencyCode : Option String
  mode : Mode
  googleMerchant : Bool
  itemTransform : Option (Item → TransformCtx → Item)
  includeFields : Option (List String)
  excludeFields : Option (List String)
  batchSize : Int
  page : Option Int
  pageSize : Option Int

/-- Append variant ids to a sales-channel group of the
`salesChannelVariantMap` (insertion-ordered). -/
def groupAdd (m : List (String × List String)) (k : String)
    (vids : List String) : List (String × List String) :=
  if m.any fun q => q.1 == k then
    m.map fun q => if q.1 == k then (q.1, q.2 ++ vids) else q
  else m ++ [(k, vids)]

/-- Build the per-batch sales-channel groups: every variant id of a product
is grouped under the product's first sales channel; a product with no sales
channel contributes nothing (service.ts lines 197-209). -/
def salesChannelGroups (batch : List Product) : List (String × List String) :=
  batch.foldl
    (fun m p =>
      match p.sales_channels with
      | [] => m
      | sc :: _ => groupAdd m sc (p.variants.map Variant.id))
    []

/-- Merge the per-group availability results into one lookup (nonempty groups
only; later entries overwrite earlier ones, service.ts lines 211-229).
`getAvail` models the external `getVariantAvailability` collaborator. -/
def aggregateAvailability (getAvail : String → List String → List (String × Int))
    (batch : List Product) : List (String × Int) :=
  ((salesChannelGroups batch).filter fun g => !g.2.isEmpty).foldl
    (fun m g => (getAvail g.1 g.2).foldl (fun m2 e => recordSet m2 e.1 e.2) m)
    []

/-- The mapper configuration assembled by `buildMappedFeedData` once a region
is selected (`store_url = options.link || "https://example.com"`). -/
def cfgOfBuild (opts : FeedOptions) (args : BuildArgs) (r : Region) : FeedCfg :=
  ⟨jsStrOr opts.link "https://example.com", opts.brand, args.mode,
    args.googleMerchant, args.itemTransform, args.includeFields,
    args.excludeFields, r.id, r.currency_code⟩

/-- `buildMappedFeedData`: resolve the region (empty region list returns an
empty feed), then process each batch in order — fetch the page, aggregate
availability for it, map it, concatenate.  `fetch` models the catalog query
(`query.graph` pagination by `(skip, take)`). -/
def buildMappedFeedData (opts : FeedOptions) (args : BuildArgs)
    (regions : List Region) (total : Nat)
    (fetch : Int → Int → List Product)
    (getAvail : String → List String → List (String × Int)) :
    Except JsErr (List Item) :=
  match resolveRegion regions args.regionId args.currencyCode with
  | none => Except.ok []
  | some region =>
    (batchIndexList total args.batchSize args.pageSize args.page).foldlM
      (fun acc bi =>
        match mapBatch (cfgOfBuild opts args region)
            (aggregateAvailability getAvail
              (fetch (bi * effectiveBatchSize args.batchSize args.pageSize)
                (effectiveBatchSize args.batchSize args.pageSize)))
            (fetch (bi * effectiveBatchSize args.batchSize args.pageSize)
              (effectiveBatchSize args.batchSize args.pageSize)) with
        | Except.ok items => Except.ok (acc ++ items)
        | Except.error err => Except.error err)
      []

/-! ### Concrete inputs used by witnesses and counterexamples -/

/-- JSON-mode configuration with no configured brand and no hooks. -/
def cfgEx : FeedCfg :=
  ⟨"https://example.com", none, Mode.json, false, none, none, none, "r1", "usd"⟩

/-- A variant with a resolved original amount. -/
def varEx : Variant :=
  ⟨"v1", some "S", [], some ⟨some 100, some 90⟩⟩

/-- A variant without a resolved price in the requested context. -/
def varNoPrice : Variant :=
  ⟨"v2", some "S2", [], none⟩

/-- A product with one eligible and one ineligible variant. -/
def prodEx : Product :=
  ⟨"p1", some "T", none, "h", none, [], none, none, [], [varEx, varNoPrice]⟩

/-- The single feed item the examples map to. -/
def itemEx : Item :=
  [("id", JsValue.str "v1"), ("itemgroup_id", JsValue.str "p1"),
    ("title", JsValue.str "T"), ("link", JsValue.str "https://example.com/h?"),
    ("price", JsValue.str "100 USD"), ("sale_price", JsValue.str "90 USD"),
    ("availability", JsValue.num 0), ("mpn", JsValue.str "S")]

/-- A product whose first three image entries all equal the thumbnail while a
fourth distinct image exists. -/
def prodImgs : Product :=
  ⟨"p2", some "T2", none, "h2", some "t",
    [some "t", some "t", some "t", some "u"], none, none, [], [varEx]⟩

/-- A product with no thumbnail whose image list starts with an empty url
followed by a real one. -/
def prodEmptyUrl : Product :=
  ⟨"p4", some "T4", none, "h4", none, [some "", some "u"], none, none, [], [varEx]⟩

/-- A product carrying a type label, used for the brand-fallback claim. -/
def prodType : Product :=
  ⟨"p3", some "T3", none, "h3", none, [], none, some "Shirts", [], [varEx]⟩

/-- A single region with currency `usd`. -/
def regionUsd : Region :=
  ⟨"r1", "usd", []⟩

/-- Build arguments requesting currency `eur` (no matching region). -/
def argsEur : BuildArgs :=
  ⟨none, some "eur", Mode.json, false, none, none, none, 50, none, none⟩

/-- Default-like feed options without a brand. -/
def optsEx : FeedOptions :=
  ⟨"Product Feed", "https://example.com", "A feed of products from our store", none⟩

/-- A configuration exercising all three hooks: a transform appending a null
field, an include list, and an exclude list. -/
def cfgHooks : FeedCfg :=
  ⟨"https://example.com", none, Mode.json, false,
    some (fun it _ => it ++ [("extra", JsValue.null)]),
    some ["id", "extra"], some ["mpn"], "r1", "usd"⟩

/-- A concrete transform context. -/
def ctxEx : TransformCtx :=
  ⟨prodEx, varEx, 0, "r1", "usd"⟩

/-! ### Theorems: additional-image selection (claim C7) -/

theorem fold_rawImages_eq_take3 (th : Option String) (a : List String)
    (imgs : List (Option String)) :
    (rawImages imgs).foldl (addImageStep th) a
      = (imgs.take 3).foldl (addImageStep th) a := by
  match imgs with
  | [] => rfl
  | [x] => rfl
  | [x, y] => rfl
  | x :: y :: z :: rest => rfl

theorem take_two_head (l : List String) : listAt (l.take 2) 0 = listAt l 0 := by
  match l with
  | [] => rfl
  | a :: t => rfl

theorem take_two_second (l : List String) : listAt (l.take 2) 1 = listAt l 1 := by
  match l with
  | [] => rfl
  | [a] => rfl
  | a :: b :: t => rfl

/-- Claim C7 (amended): the mapped item's `additional_image_1` and
`additional_image_2` are the first up-to-two **non-empty** URLs **among the
first three entries** of the product's image list that are neither equal to
the thumbnail nor duplicates of each other, in list order.  (Images past
index 2 are never eligible, and an empty-string url is skipped by the falsy
guard — see the counterexample.) -/
theorem additionalImages_spec_on_first_three (th : Option String)
    (imgs : List (Option String)) :
    (additionalImages th imgs).take 2 = specSelectedImages th (imgs.take 3)
    ∧ listAt (additionalImages th imgs) 0 = listAt (specSelectedImages th (imgs.take 3)) 0
    ∧ listAt (additionalImages th imgs) 1 = listAt (specSelectedImages th (imgs.take 3)) 1 := by
  have h : additionalImages th imgs = (imgs.take 3).foldl (addImageStep th) [] :=
    fold_rawImages_eq_take3 th [] imgs
  refine ⟨?_, ?_, ?_⟩
  · unfold specSelectedImages
    rw [h]
  · unfold specSelectedImages
    rw [h, take_two_head]
  · unfold specSelectedImages
    rw [h, take_two_second]

/-- Counterexample for claim C7 as stated, on both points the amendment
changes.  With thumbnail `t` and image list `[t, t, t, u]`, the mapped item
has no `additional_image_1` at all, while the claim's whole-list selection
would pick `u` (which sits at index 3, past the three entries the source
consults).  And with no thumbnail and image list `["", u]`, the code's falsy
guard skips the empty url so the mapped item's `additional_image_1` is `u`,
while under the claim's selection the first eligible URL is `""` (the empty
url is a URL of the list that is neither the thumbnail nor a duplicate) and
`u` would only be the second. -/
theorem additionalImages_counterexample :
    (mapVariant cfgEx [] prodImgs varEx).map
        (fun it => itemGet it "additional_image_1") = Except.ok none
    ∧ additionalImages prodImgs.thumbnail prodImgs.images = []
    ∧ claimSelectedImages prodImgs.thumbnail prodImgs.images = ["u"]
    ∧ (mapVariant cfgEx [] prodEmptyUrl varEx).map
        (fun it => itemGet it "additional_image_1")
        = Except.ok (some (JsValue.str "u"))
    ∧ claimSelectedImages prodEmptyUrl.thumbnail prodEmptyUrl.images = ["", "u"] := by
  refine ⟨rfl, by decide, by decide, rfl, by decide⟩

/-! ### Theorems: batch paginator (claims C3, C10) -/

theorem effectiveBatchSize_ge_one (bs : Int) (ps : Option Int) :
    1 ≤ effectiveBatchSize bs ps :=
  le_max_left 1 (ps.getD bs)

theorem effectiveBatchSize_toNat_pos (bs : Int) (ps : Option Int) :
    0 < (effectiveBatchSize bs ps).toNat := by
  have h := effectiveBatchSize_ge_one bs ps
  omega

theorem numBatches_ceil (total : Nat) (bs : Int) (ps : Option Int) :
    total ≤ numBatches total bs ps * (effectiveBatchSize bs ps).toNat
    ∧ numBatches total bs ps * (effectiveBatchSize bs ps).toNat
        < total + (effectiveBatchSize bs ps).toNat := by
  have hpos : 0 < (effectiveBatchSize bs ps).toNat := effectiveBatchSize_toNat_pos bs ps
  unfold numBatches ceilDiv
  have hdm := Nat.div_add_mod (total + (effectiveBatchSize bs ps).toNat - 1)
    (effectiveBatchSize bs ps).toNat
  have hmod := Nat.mod_lt (total + (effectiveBatchSize bs ps).toNat - 1) hpos
  constructor
  · rw [Nat.mul_comm]
    omega
  · rw [Nat.mul_comm]
    omega

theorem intRangeIncl_singleton (a : Int) : intRangeIncl a a = [a] := by
  unfold intRangeIncl
  have h1 : (a + 1 - a).toNat = 1 := by omega
  have h2 : List.range 1 = [0] := by decide
  rw [h1, h2]
  simp

theorem intRangeIncl_from_zero (n : Nat) :
    intRangeIncl 0 ((n : Int) - 1)
      = List.map (fun i : Nat => (i : Int)) (List.range n) := by
  unfold intRangeIncl
  have h1 : ((n : Int) - 1 + 1 - 0).toNat = n := by omega
  rw [h1]
  exact List.map_congr_left fun i _ => by simp

/-- Claim C3: the total batch count is `ceil(totalCount / effectiveBatchSize)`
(characterized by `total ≤ batches*size < total + size`); a positive 1-based
`page` yields exactly the one descriptor `(offset = (page-1)*size, take =
size)`; with no page the loop visits descriptors `(i*size, size)` for every
`i` from 0 to `batches - 1` in increasing order. -/
theorem batch_paginator_correct (total : Nat) (bs : Int) (ps : Option Int) :
    (total ≤ numBatches total bs ps * (effectiveBatchSize bs ps).toNat
      ∧ numBatches total bs ps * (effectiveBatchSize bs ps).toNat
          < total + (effectiveBatchSize bs ps).toNat)
    ∧ (∀ p : Int, 0 < p →
        batchDescriptors total bs ps (some p)
          = [((p - 1) * effectiveBatchSize bs ps, effectiveBatchSize bs ps)])
    ∧ batchDescriptors total bs ps none
        = (List.range (numBatches total bs ps)).map
            (fun i : Nat => ((i : Int) * effectiveBatchSize bs ps,
              effectiveBatchSize bs ps)) := by
  refine ⟨numBatches_ceil total bs ps, ?_, ?_⟩
  · intro p hp
    have hpp : pagePositive (some p) = true := by
      simp [pagePositive, hp]
    unfold batchDescriptors batchIndexList
    rw [hpp]
    simp only [if_true, Option.getD_some]
    rw [intRangeIncl_singleton]
    rfl
  · have hpp : pagePositive none = false := rfl
    unfold batchDescriptors batchIndexList
    rw [hpp]
    simp only [Bool.false_eq_true, if_false]
    rw [intRangeIncl_from_zero]
    rw [List.map_map]
    rfl

/-- Witness for claim C3 at `total = 5`, `batchSize = 2`, `page = 2`. -/
theorem batch_paginator_witness :
    (0 : Int) < 2 ∧ batchDescriptors 5 2 none (some 2) = [(2, 2)] :=
  ⟨by decide, ((batch_paginator_correct 5 2 none).2.1 2 (by decide)).trans (by decide)⟩

/-- Claim C10: for every call the effective batch size is
`max(1, pageSize ?? batchSize) ≥ 1` — also for a zero or negative `pageSize`
— so the loop visits exactly `ceil(total / effectiveBatchSize)` batch indices
when no positive page is supplied, and exactly one when a positive page is
supplied; in particular the loop always terminates after finitely many
iterations. -/
theorem effectiveBatchSize_pos_and_loop_length (total : Nat) (bs : Int)
    (ps page : Option Int) :
    1 ≤ effectiveBatchSize bs ps
    ∧ (batchDescriptors total bs ps page).length
        = (if pagePositive page then 1 else numBatches total bs ps) := by
  refine ⟨effectiveBatchSize_ge_one bs ps, ?_⟩
  cases hpp : pagePositive page with
  | true =>
    unfold batchDescriptors batchIndexList
    rw [hpp]
    simp only [if_true]
    rw [intRangeIncl_singleton]
    rfl
  | false =>
    unfold batchDescriptors batchIndexList
    rw [hpp]
    simp only [Bool.false_eq_true, if_false]
    rw [intRangeIncl_from_zero]
    rw [List.length_map, List.length_map, List.length_range]

/-! ### Theorems: item mapper (claims C1, C4) -/

theorem mapM_except_ok {α β : Type} (f : α → Except JsErr β) :
    ∀ (l : List α) (r : List β), l.mapM f = Except.ok r →
      r.length = l.length ∧ ∀ b ∈ r, ∃ a ∈ l, f a = Except.ok b := by
  intro l
  induction l with
  | nil =>
    intro r h
    have h2 : ([] : List β) = r := Except.ok.inj h
    subst h2
    exact ⟨rfl, by simp⟩
  | cons a t ih =>
    intro r h
    rw [List.mapM_cons] at h
    cases hfa : f a with
    | error e =>
      rw [hfa] at h
      exact Except.noConfusion h
    | ok b =>
      rw [hfa] at h
      cases hrest : t.mapM f with
      | error e =>
        rw [hrest] at h
        exact Except.noConfusion h
      | ok bs =>
        rw [hrest] at h
        have h2 : b :: bs = r := Except.ok.inj h
        subst h2
        obtain ⟨ihl, ihm⟩ := ih bs hrest
        refine ⟨by simp [ihl], ?_⟩
        intro x hx
        rcases List.mem_cons.mp hx with hx1 | hx2
        · subst hx1
          exact ⟨a, List.mem_cons_self a t, hfa⟩
        · obtain ⟨a2, ha2, hfa2⟩ := ihm x hx2
          exact ⟨a2, List.mem_cons_of_mem a ha2, hfa2⟩

theorem batchPairs_length (products : List Product) :
    (batchPairs products).length
      = (products.map fun p => (eligibleVariants p).length).sum := by
  unfold batchPairs
  induction products with
  | nil => rfl
  | cons p ps ihp =>
    simp only [List.flatMap_cons, List.length_append, List.map_cons, List.sum_cons,
      List.length_map]
    rw [ihp]

/-- Claim C1: for every configuration (both JSON and XML output modes) and
every successful batch mapping, the number of returned items is exactly the
number of variants whose calculated price has a resolved original amount, and
every returned item is the mapped image of such a variant — variants lacking
a resolved original amount are omitted. -/
theorem mapBatch_only_priced_variants (cfg : FeedCfg) (avail : List (String × Int))
    (products : List Product) (items : List Item)
    (h : mapBatch cfg avail products = Except.ok items) :
    items.length = (products.map fun p => (eligibleVariants p).length).sum
    ∧ ∀ it ∈ items, ∃ p ∈ products, ∃ v ∈ p.variants,
        hasOriginalAmount v = true ∧ mapVariant cfg avail p v = Except.ok it := by
  unfold mapBatch at h
  have hm := mapM_except_ok (fun q => mapVariant cfg avail q.1 q.2)
    (batchPairs products) items h
  constructor
  · rw [hm.1, batchPairs_length]
  · intro it hit
    obtain ⟨q, hq, hfq⟩ := hm.2 it hit
    unfold batchPairs at hq
    rw [List.mem_flatMap] at hq
    obtain ⟨p, hp, hq2⟩ := hq
    rw [List.mem_map] at hq2
    obtain ⟨v, hv, hqv⟩ := hq2
    rw [eligibleVariants, List.mem_filter] at hv
    subst hqv
    exact ⟨p, hp, v, hv.1, hv.2, hfq⟩

/-- Witness for claim C1: a batch with one eligible and one priceless variant
maps to exactly the eligible variant's item. -/
theorem mapBatch_only_priced_witness :
    mapBatch cfgEx [] [prodEx] = Except.ok [itemEx]
    ∧ ∀ it ∈ [itemEx], ∃ p ∈ [prodEx], ∃ v ∈ p.variants,
        hasOriginalAmount v = true ∧ mapVariant cfgEx [] p v = Except.ok it :=
  ⟨rfl, (mapBatch_only_priced_variants cfgEx [] [prodEx] [itemEx] rfl).2⟩

/-- Claim C4: batch invariance — for a fixed configuration (pricing context)
and fixed availability data, mapping the concatenation of two consecutive
fetch pages equals concatenating the two pages' mapped item lists. -/
theorem mapBatch_batch_invariant (cfg : FeedCfg) (avail : List (String × Int))
    (xs ys : List Product) :
    mapBatch cfg avail (xs ++ ys)
      = (do
          let a ← mapBatch cfg avail xs
          let b ← mapBatch cfg avail ys
          pure (a ++ b)) := by
  unfold mapBatch batchPairs
  rw [List.flatMap_append, List.mapM_append]

/-! ### Theorems: post-processing hooks (claim C8) -/

/-- Claim C8: the post-processing hooks are composed in the fixed order
transform → include-filter → exclude-filter → empty-strip; the include filter
retains the item's original key order (the filtered item is a sublist of the
transformed item); and after the strip no key of the returned item carries a
null, undefined, or empty-string value. -/
theorem postProcess_fixed_order_and_strip (cfg : FeedCfg) (ctx : TransformCtx)
    (it : Item) :
    postProcess cfg ctx it
      = stripEmptyValues (applyExclude cfg.excludeFields
          (applyInclude cfg.includeFields (applyTransform cfg ctx it)))
    ∧ (∀ kv ∈ postProcess cfg ctx it, isEmptyVal kv.2 = false)
    ∧ List.Sublist (applyInclude cfg.includeFields (applyTransform cfg ctx it))
        (applyTransform cfg ctx it) := by
  refine ⟨rfl, ?_, ?_⟩
  · intro kv hkv
    unfold postProcess stripEmptyValues at hkv
    rw [List.mem_filter] at hkv
    simpa using hkv.2
  · unfold applyInclude
    cases cfg.includeFields with
    | none => exact List.Sublist.refl _
    | some l =>
      dsimp only
      by_cases hl : l.isEmpty = true
      · rw [if_pos hl]
      · rw [if_neg hl]
        exact List.filter_sublist _

/-- Witness for claim C8: with a transform adding a null `extra` field, an
include list `["id", "extra"]` and an exclude list `["mpn"]`, the surviving
`id` field has a non-empty value. -/
theorem postProcess_fixed_order_witness :
    ("id", JsValue.str "a") ∈ postProcess cfgHooks ctxEx
        [("id", JsValue.str "a"), ("mpn", JsValue.str "m")]
    ∧ isEmptyVal (JsValue.str "a") = false :=
  ⟨by decide,
    (postProcess_fixed_order_and_strip cfgHooks ctxEx
      [("id", JsValue.str "a"), ("mpn", JsValue.str "m")]).2.1
      ("id", JsValue.str "a") (by decide)⟩

/-! ### Theorems: mode-dependent brand field (claim C9) -/

theorem itemGet_filter_none (pred : String × JsValue → Bool) (k : String) :
    ∀ it : Item, (∀ q ∈ it, q.1 = k → pred q = false) →
      itemGet (it.filter pred) k = none := by
  intro it
  induction it with
  | nil => intro _; rfl
  | cons q rest ih =>
    intro h
    have hrest := fun q2 hq2 => h q2 (List.mem_cons_of_mem q hq2)
    cases hpq : pred q with
    | true =>
      have hk : ¬(q.1 = k) := fun he => by
        rw [h q (List.mem_cons_self q rest) he] at hpq
        exact Bool.false_ne_true hpq
      rw [List.filter_cons_of_pos hpq]
      unfold itemGet mapGet
      rw [List.find?_cons_of_neg _ (by simpa using hk)]
      exact ih hrest
    | false =>
      rw [List.filter_cons_of_neg (by simp [hpq])]
      exact ih hrest

theorem itemGet_filter_found (pred : String × JsValue → Bool) (k : String)
    (v : JsValue) :
    ∀ it : Item, (∀ q ∈ it, q.1 = k → q = (k, v)) → (k, v) ∈ it →
      pred (k, v) = true → itemGet (it.filter pred) k = some v := by
  intro it
  induction it with
  | nil =>
    intro _ hmem _
    exact absurd hmem (List.not_mem_nil _)
  | cons q rest ih =>
    intro hall hmem hpred
    have hallr := fun q2 hq2 => hall q2 (List.mem_cons_of_mem q hq2)
    by_cases hqk : q.1 = k
    · have hq : q = (k, v) := hall q (List.mem_cons_self q rest) hqk
      subst hq
      rw [List.filter_cons_of_pos hpred]
      unfold itemGet mapGet
      rw [List.find?_cons_of_pos _ (by simp)]
      rfl
    · have hmemr : (k, v) ∈ rest := by
        rcases List.mem_cons.mp hmem with he | hr
        · exact absurd (congrArg Prod.fst he.symm) hqk
        · exact hr
      cases hpq : pred q with
      | true =>
        rw [List.filter_cons_of_pos hpq]
        unfold itemGet mapGet
        rw [List.find?_cons_of_neg _ (by simpa using hqk)]
        exact ih hallr hmemr hpred
      | false =>
        rw [List.filter_cons_of_neg (by simp [hpq])]
        exact ih hallr hmemr hpred

/-- Claim C9: with no configured feed-level brand, for a product carrying a
nonempty type label and a variant without options, the XML-mode item's brand
field falls back to the product's type label, while the JSON-mode item has no
brand key at all (its undefined value is stripped) — regardless of the
Google Merchant prefix flag, the hook-free configuration, and the remaining
product and variant data. -/
theorem brand_mode_dependence (u r c tv : String) (gm : Bool) (p : Product)
    (v : Variant) (hopt : v.options = []) (htv : p.typeValue = some tv)
    (hne : tv ≠ "") :
    (mapVariant ⟨u, none, Mode.json, gm, none, none, none, r, c⟩ [] p v).map
        (fun it => itemGet it "brand") = Except.ok none
    ∧ (mapVariant ⟨u, none, Mode.xml, gm, none, none, none, r, c⟩ [] p v).map
        (fun it => itemGet it (gKey gm "brand")) = Except.ok (some (JsValue.str tv)) := by
  constructor
  · have hmv : mapVariant ⟨u, none, Mode.json, gm, none, none, none, r, c⟩ [] p v
        = Except.ok (stripEmptyValues
            (baseItemJson ⟨u, none, Mode.json, gm, none, none, none, r, c⟩ p v [] 0)) := by
      unfold mapVariant
      rw [hopt]
      rfl
    rw [hmv]
    show Except.ok (itemGet (List.filter _ _) "brand") = Except.ok none
    congr 1
    apply itemGet_filter_none
    intro q hq hk
    simp only [baseItemJson, spreadOptions, List.foldl_nil, List.mem_cons,
      List.not_mem_nil, or_false] at hq
    rcases hq with rfl | rfl | rfl | rfl | rfl | rfl | rfl | rfl | rfl | rfl | rfl
      | rfl | rfl | rfl | rfl
    all_goals first
      | rfl
      | simp at hk
  · cases gm with
    | false =>
      have hmv : mapVariant ⟨u, none, Mode.xml, false, none, none, none, r, c⟩ [] p v
          = Except.ok (stripEmptyValues
              (baseItemXml ⟨u, none, Mode.xml, false, none, none, none, r, c⟩ p v [] 0)) := by
        unfold mapVariant
        rw [hopt]
        rfl
      rw [hmv]
      show Except.ok (itemGet (List.filter _ _) (gKey false "brand"))
        = Except.ok (some (JsValue.str tv))
      congr 1
      apply itemGet_filter_found
      · intro q hq hk
        simp only [baseItemXml, spreadOptions, List.foldl_nil, List.mem_cons,
          List.not_mem_nil, or_false] at hq
        rcases hq with rfl | rfl | rfl | rfl | rfl | rfl | rfl | rfl | rfl | rfl | rfl
          | rfl | rfl | rfl | rfl | rfl
        all_goals first
          | (simp [gKey, feedBrand, jsOrUndef, jsOrOpt, jsOfOpt, htv]; done)
          | simp [gKey] at hk
      · simp only [baseItemXml, spreadOptions, List.foldl_nil, List.mem_cons]
        refine Or.inr (Or.inr (Or.inr (Or.inr (Or.inr (Or.inr (Or.inr (Or.inr
          (Or.inl ?_))))))))
        simp [gKey, feedBrand, jsOrUndef, jsOrOpt, jsOfOpt, htv]
      · simp [isEmptyVal, hne]
    | true =>
      have hmv : mapVariant ⟨u, none, Mode.xml, true, none, none, none, r, c⟩ [] p v
          = Except.ok (stripEmptyValues
              (baseItemXml ⟨u, none, Mode.xml, true, none, none, none, r, c⟩ p v [] 0)) := by
        unfold mapVariant
        rw [hopt]
        rfl
      rw [hmv]
      show Except.ok (itemGet (List.filter _ _) (gKey true "brand"))
        = Except.ok (some (JsValue.str tv))
      congr 1
      apply itemGet_filter_found
      · intro q hq hk
        simp only [baseItemXml, spreadOptions, List.foldl_nil, List.mem_cons,
          List.not_mem_nil, or_false] at hq
        rcases hq with rfl | rfl | rfl | rfl | rfl | rfl | rfl | rfl | rfl | rfl | rfl
          | rfl | rfl | rfl | rfl | rfl
        all_goals first
          | (simp [gKey, feedBrand, jsOrUndef, jsOrOpt, jsOfOpt, htv]; done)
          | simp [gKey] at hk
      · simp only [baseItemXml, spreadOptions, List.foldl_nil, List.mem_cons]
        refine Or.inr (Or.inr (Or.inr (Or.inr (Or.inr (Or.inr (Or.inr (Or.inr
          (Or.inl ?_))))))))
        simp [gKey, feedBrand, jsOrUndef, jsOrOpt, jsOfOpt, htv]
      · simp [isEmptyVal, hne]

/-- Witness for claim C9 on a concrete product with type label `Shirts`. -/
theorem brand_mode_dependence_witness :
    (mapVariant ⟨"https://example.com", none, Mode.json, false, none, none, none,
        "r1", "usd"⟩ [] prodType varEx).map
        (fun it => itemGet it "brand") = Except.ok none
    ∧ (mapVariant ⟨"https://example.com", none, Mode.xml, false, none, none, none,
        "r1", "usd"⟩ [] prodType varEx).map
        (fun it => itemGet it (gKey false "brand"))
        = Except.ok (some (JsValue.str "Shirts")) :=
  brand_mode_dependence "https://example.com" "r1" "usd" "Shirts" false prodType varEx
    rfl rfl (by decide)

/-! ### Theorems: region resolution and the v2 route (claim C2) -/

/-- Counterexample for claim C2 as stated: with the single region `usd` and a
requested currency `eur` matching no region, `buildMappedFeedData` does not
fail with a no-match error — it falls back to the first region and produces a
feed item priced in USD. -/
theorem buildFeed_unmatched_currency_counterexample :
    buildMappedFeedData optsEx argsEur [regionUsd] 1
        (fun _ _ => [prodEx]) (fun _ _ => []) = Except.ok [itemEx]
    ∧ ∀ reg ∈ [regionUsd], reg.currency_code ≠ "eur" := by
  exact ⟨rfl, by decide⟩

/-- Claim C2 (amended): `buildMappedFeedData` selects the region matching the
caller-supplied region id, else the region matching the caller-supplied
currency, else the first region of the list; an empty region list makes the
service return an empty feed (not an error).  The 404 failures are enforced
by the `/feed/v2/products` route before the build: an empty region list and a
requested currency with no matching region each yield a 404 without invoking
the build, so an unmatched currency never produces a feed through the route. -/
theorem region_resolution_amended :
    (∀ (regions : List Region) (rid cur : Option String) (r : Region),
      regions ≠ [] → findRegionById regions rid = some r →
        resolveRegion regions rid cur = some r)
    ∧ (∀ (regions : List Region) (rid cur : Option String) (r : Region),
      regions ≠ [] → findRegionById regions rid = none →
        findRegionByCurrency regions cur = some r →
        resolveRegion regions rid cur = some r)
    ∧ (∀ (r0 : Region) (rest : List Region) (rid cur : Option String),
      findRegionById (r0 :: rest) rid = none →
        findRegionByCurrency (r0 :: rest) cur = none →
        resolveRegion (r0 :: rest) rid cur = some r0)
    ∧ (∀ rid cur : Option String, resolveRegion [] rid cur = none)
    ∧ (∀ (opts : FeedOptions) (args : BuildArgs) (total : Nat)
        (fetch : Int → Int → List Product)
        (getAvail : String → List String → List (String × Int)),
      buildMappedFeedData opts args [] total fetch getAvail = Except.ok [])
    ∧ (∀ cc cur : Option String,
      feedV2SelectRegion [] cc cur = Except.error RouteError.noRegions)
    ∧ (∀ (regions : List Region) (cur : String) (build : String → String → List Item),
      regions ≠ [] → cur ≠ "" →
        regions.find? (fun r => r.currency_code == cur) = none →
        feedV2GET regions none (some cur) build
          = Except.error RouteError.noCurrencyMatch) := by
  refine ⟨?_, ?_, ?_, ?_, ?_, ?_, ?_⟩
  · intro regions rid cur r hne hid
    cases regions with
    | nil => exact absurd rfl hne
    | cons r0 rest =>
      unfold resolveRegion
      rw [hid]
  · intro regions rid cur r hne hid hcur
    cases regions with
    | nil => exact absurd rfl hne
    | cons r0 rest =>
      unfold resolveRegion
      rw [hid, hcur]
  · intro r0 rest rid cur hid hcur
    unfold resolveRegion
    rw [hid, hcur]
  · intro rid cur
    rfl
  · intro opts args total fetch getAvail
    rfl
  · intro cc cur
    rfl
  · intro regions cur build hne hcur hfind
    cases regions with
    | nil => exact absurd rfl hne
    | cons r0 rest =>
      unfold feedV2GET feedV2SelectRegion
      have htr : optTruthy (some cur) = true := by
        simp [optTruthy, hcur]
      have hfa : optTruthy (none : Option String) = false := rfl
      rw [hfa, htr]
      simp only [Bool.false_eq_true, if_false, if_true, Option.getD_some]
      rw [hfind]

/-- Witness for claim C2: the route refuses the unmatched currency `eur`
before any feed is built. -/
theorem region_resolution_amended_witness :
    feedV2GET [regionUsd] none (some "eur") (fun _ _ => [itemEx])
      = Except.error RouteError.noCurrencyMatch :=
  region_resolution_amended.2.2.2.2.2.2 [regionUsd] "eur" (fun _ _ => [itemEx])
    (by decide) (by decide) (by decide)

end ProductFeed
